import Mathlib

/-!
Shallow embedding of the CD-key redemption scripts
(`src/cdkey.py`, `src/cd_key_retrieval.py`, `src/cdkey_info_retrieval.py`).

Modelling conventions:

* Remote HTTP responses are abstracted into two oracle functions supplied to
  the drivers: `rolesOf : String → RolesResponse` gives, per region, the
  parsed JSON of the `getUserGameRolesByCookieToken` endpoint (its documented
  shape is `\x7b data: \x7b list: [...] \x7d | null \x7d`), and
  `redeemOf : RedeemCall → RedeemResponse` gives, per outgoing redemption
  request, the `retcode` field of the `webExchangeCdkey` endpoint's JSON.
  The authentication cookie and the fixed query parameters (`lang`,
  `sLangKey`, `game_biz=hk4e_global`) are the same on every request of a run,
  so they are absorbed into the oracle closures.
* A Python exception (network failure, malformed JSON, `TypeError` from
  subscripting `None`) is modelled with `Except String`: `.error e`
  propagates outward exactly as an uncaught exception does, since no
  `try`/`except` appears anywhere in the source.
* Each driver is modelled as a function returning both its Python return
  value and the trace of redemption requests it issued, in order; the trace
  records the per-call query parameters `uid`, `cdkey`, `region`, `game_biz`.
* Python `dict`s are modelled as insertion-ordered association lists:
  updating an existing key replaces its value in place, a fresh key is
  appended at the end.
-/

/-- One record of the role list: `\x7b game_uid, game_biz \x7d`. -/
structure Role where
  game_uid : Nat
  game_biz : String
  deriving DecidableEq, Repr

/-- The `data` field of the role-lookup response: JSON `null`, or an object
holding the `list` field. -/
inductive RoleData where
  | null : RoleData
  | withList : List Role → RoleData
  deriving DecidableEq, Repr

/-- Outcome of one role-lookup HTTP call: `.error` for a network failure or
malformed JSON, `.ok` for a parsed `data` payload. -/
abbrev RolesResponse := Except String RoleData

/-- Outcome of one redemption HTTP call: `.error` for a network failure or
malformed JSON, `.ok retcode` for a parsed response. -/
abbrev RedeemResponse := Except String Int

/-- The query parameters of one outgoing `webExchangeCdkey` request, as built
by the drivers (`uid`, `cdkey`, `region`, `game_biz`; `lang` and `sLangKey`
are constants). -/
structure RedeemCall where
  uid : Nat
  cdkey : String
  region : String
  game_biz : String
  deriving DecidableEq, Repr

/-- The fixed code-to-label dictionary shared verbatim by all three scripts:
`\x7b0: "success", -2001: "expired", -2003: "invalid",
-2017: "already in use"\x7d.get(retcode, "unknown")`. -/
def retcodeTable (retcode : Int) : String :=
  if retcode = 0 then "success"
  else if retcode = -2001 then "expired"
  else if retcode = -2003 then "invalid"
  else if retcode = -2017 then "already in use"
  else "unknown"

/-- The fixed region iteration order, identical in all three drivers
(`regions` in `cdkey.py`, `target_regions` in the other two). -/
def regions : List String := ["os_usa", "os_euro", "os_asia", "os_cht"]

namespace Cdkey

/-- `get_cdkey_info` of `src/cdkey.py` (lines 33-77), given the outcome of
its HTTP call: an exception propagates, otherwise the retcode goes through
the fixed dictionary. -/
def get_cdkey_info (resp : RedeemResponse) : Except String String :=
  resp.map retcodeTable

/-- The region loop of `main` in `src/cdkey.py` (lines 106-136), generalised
over the remaining region list.  Note line 125 reads
`response["data"]["list"]` with no `None` check: a `null` data payload makes
Python raise `TypeError` (subscripting `None`).  Returns the Python return
value (`some status` on early return, `none` when the loop falls through)
paired with the trace of redemption calls. -/
def mainLoop (cdkey : String) (rolesOf : String → RolesResponse)
    (redeemOf : RedeemCall → RedeemResponse) :
    List String → Except String (Option String) × List RedeemCall
  | [] => (.ok none, [])
  | region :: rest =>
    match rolesOf region with
    | .error e => (.error e, [])
    | .ok .null => (.error "TypeError", [])
    | .ok (.withList []) => mainLoop cdkey rolesOf redeemOf rest
    | .ok (.withList (first :: _)) =>
      let call : RedeemCall := ⟨first.game_uid, cdkey, region, first.game_biz⟩
      match get_cdkey_info (redeemOf call) with
      | .error e => (.error e, [call])
      | .ok s => (.ok (some s), [call])

/-- `main` of `src/cdkey.py`: the loop over the fixed region list. -/
def main (cdkey : String) (rolesOf : String → RolesResponse)
    (redeemOf : RedeemCall → RedeemResponse) :
    Except String (Option String) × List RedeemCall :=
  mainLoop cdkey rolesOf redeemOf regions

end Cdkey

namespace CdKeyRetrieval

/-- `get_cdkey_status` of `src/cd_key_retrieval.py` (lines 36-86): same
response handling and the same fixed dictionary as `cdkey.py`. -/
def get_cdkey_status (resp : RedeemResponse) : Except String String :=
  resp.map retcodeTable

/-- The region loop of `main` in `src/cd_key_retrieval.py` (lines 115-150).
Unlike `cdkey.py` it guards `data` (lines 134-137): a `null` payload hits
`if not data: continue` and the loop moves on. -/
def mainLoop (cdkey : String) (rolesOf : String → RolesResponse)
    (redeemOf : RedeemCall → RedeemResponse) :
    List String → Except String (Option String) × List RedeemCall
  | [] => (.ok none, [])
  | region :: rest =>
    match rolesOf region with
    | .error e => (.error e, [])
    | .ok .null => mainLoop cdkey rolesOf redeemOf rest
    | .ok (.withList []) => mainLoop cdkey rolesOf redeemOf rest
    | .ok (.withList (first :: _)) =>
      let call : RedeemCall := ⟨first.game_uid, cdkey, region, first.game_biz⟩
      match get_cdkey_status (redeemOf call) with
      | .error e => (.error e, [call])
      | .ok s => (.ok (some s), [call])

/-- `main` of `src/cd_key_retrieval.py`: the loop over the fixed region
list. -/
def main (cdkey : String) (rolesOf : String → RolesResponse)
    (redeemOf : RedeemCall → RedeemResponse) :
    Except String (Option String) × List RedeemCall :=
  mainLoop cdkey rolesOf redeemOf regions

end CdKeyRetrieval

namespace InfoRetrieval

/-- `get_cdkey_status` of `src/cdkey_info_retrieval.py` (lines 37-75): the
session only carries headers, the response handling and dictionary are the
same. -/
def get_cdkey_status (resp : RedeemResponse) : Except String String :=
  resp.map retcodeTable

/-- The inner per-region dict `cd_key_statuses[region]`: account id to
status, insertion ordered. -/
abbrev InnerDict := List (Nat × String)

/-- The nested dict `cd_key_statuses`: region to inner dict, insertion
ordered. -/
abbrev ResultTable := List (String × InnerDict)

/-- Python `inner[k] = v` on an insertion-ordered dict: replace in place if
the key exists, append otherwise. -/
def updInner : InnerDict → Nat → String → InnerDict
  | [], k, v => [(k, v)]
  | (k', v') :: rest, k, v =>
    if k' = k then (k, v) :: rest else (k', v') :: updInner rest k v

/-- Python `outer[r]` lookup on the nested dict. -/
def lookupOuter : ResultTable → String → Option InnerDict
  | [], _ => none
  | (r', inner) :: rest, r => if r' = r then some inner else lookupOuter rest r

/-- Python `outer[r] = inner` on an insertion-ordered dict. -/
def setOuter : ResultTable → String → InnerDict → ResultTable
  | [], r, inner => [(r, inner)]
  | (r', i') :: rest, r, inner =>
    if r' = r then (r, inner) :: rest else (r', i') :: setOuter rest r inner

/-- Lines 135-141 of `src/cdkey_info_retrieval.py`:
`if not cd_key_statuses: cd_key_statuses = \x7b\x7d`, then
`if not target_region in cd_key_statuses: cd_key_statuses[target_region] = \x7b\x7d`,
then `cd_key_statuses[target_region][game_uid] = cd_key_status`.
(`not cd_key_statuses` is true exactly for `None` and for the empty dict,
and both branches leave the same empty dict, so `getD []` is faithful.) -/
def record (acc : Option ResultTable) (region : String) (uid : Nat)
    (status : String) : ResultTable :=
  let d := acc.getD []
  let inner := (lookupOuter d region).getD []
  setOuter d region (updInner inner uid status)

/-- The inner `for user_game_role in user_game_roles_data` loop of `main`
(lines 123-141): one redemption call per list entry, threading the
accumulator; an exception in a call aborts the whole run. -/
def processRoles (cdkey : String) (region : String)
    (redeemOf : RedeemCall → RedeemResponse) (acc : Option ResultTable) :
    List Role → Except String (Option ResultTable) × List RedeemCall
  | [] => (.ok acc, [])
  | role :: rest =>
    let call : RedeemCall := ⟨role.game_uid, cdkey, region, role.game_biz⟩
    match get_cdkey_status (redeemOf call) with
    | .error e => (.error e, [call])
    | .ok status =>
      let next := processRoles cdkey region redeemOf
        (some (record acc region role.game_uid status)) rest
      (next.1, call :: next.2)

/-- The region loop of `main` in `src/cdkey_info_retrieval.py`
(lines 98-141): guards `data` with `if not data: continue` (lines 115-119),
then visits every role of the region. -/
def mainLoop (cdkey : String) (rolesOf : String → RolesResponse)
    (redeemOf : RedeemCall → RedeemResponse) (acc : Option ResultTable) :
    List String → Except String (Option ResultTable) × List RedeemCall
  | [] => (.ok acc, [])
  | region :: rest =>
    match rolesOf region with
    | .error e => (.error e, [])
    | .ok .null => mainLoop cdkey rolesOf redeemOf acc rest
    | .ok (.withList roles) =>
      match processRoles cdkey region redeemOf acc roles with
      | (.error e, tr) => (.error e, tr)
      | (.ok acc', tr) =>
        let next := mainLoop cdkey rolesOf redeemOf acc' rest
        (next.1, tr ++ next.2)

/-- `main` of `src/cdkey_info_retrieval.py` (lines 78-144): the accumulator
starts as Python `None` (line 93) and the loop runs over the fixed region
list. -/
def main (cdkey : String) (rolesOf : String → RolesResponse)
    (redeemOf : RedeemCall → RedeemResponse) :
    Except String (Option ResultTable) × List RedeemCall :=
  mainLoop cdkey rolesOf redeemOf none regions

end InfoRetrieval

/-- Test oracle: every region's role lookup answers with a `null` data
payload. -/
def rolesAllNull : String → RolesResponse := fun _ => .ok .null

/-- Test oracle: every region's role lookup answers with an empty role
list. -/
def rolesAllEmpty : String → RolesResponse := fun _ => .ok (.withList [])

/-- Test oracle: every redemption call answers with retcode 0. -/
def redeemAllZero : RedeemCall → RedeemResponse := fun _ => .ok 0

/-- Test oracle: `os_euro` has one account, every other region's data
payload is `null`. -/
def rolesNullThenEuro : String → RolesResponse := fun r =>
  if r = "os_euro" then .ok (.withList [⟨1, "hk4e_global"⟩]) else .ok .null

/-- Test oracle: `os_euro` has one account, every other region has an empty
role list. -/
def rolesEmptyThenEuro : String → RolesResponse := fun r =>
  if r = "os_euro" then .ok (.withList [⟨7, "hk4e_global"⟩])
  else .ok (.withList [])

/-- Test oracle: `os_usa` lists the same account twice, every other region's
data payload is `null`. -/
def rolesDupUsa : String → RolesResponse := fun r =>
  if r = "os_usa" then
    .ok (.withList [⟨1, "hk4e_global"⟩, ⟨1, "hk4e_global"⟩])
  else .ok .null

/-- Test oracle: `os_usa` has two distinct accounts, every other region's
data payload is `null`. -/
def rolesTwoUsa : String → RolesResponse := fun r =>
  if r = "os_usa" then
    .ok (.withList [⟨1, "hk4e_global"⟩, ⟨2, "hk4e_global"⟩])
  else .ok .null

/-- Test oracle: every role lookup fails with a connection error. -/
def rolesAllErr : String → RolesResponse := fun _ => .error "ConnectionError"

/-- Test oracle: `os_usa` has two distinct accounts, every later region's
lookup fails with a connection error. -/
def rolesUsaThenErr : String → RolesResponse := fun r =>
  if r = "os_usa" then
    .ok (.withList [⟨1, "hk4e_global"⟩, ⟨2, "hk4e_global"⟩])
  else .error "ConnectionError"

/-- Test oracle: every redemption call fails with a timeout. -/
def redeemAllErr : RedeemCall → RedeemResponse := fun _ => .error "Timeout"

/-- The role list a region's lookup response carries: the `list` field when
the payload holds one, `[]` for a `null` payload.  Used to state which
(region, account) pairs a run discovers. -/
def rolesListOf (rolesOf : String → RolesResponse) (r : String) : List Role :=
  match rolesOf r with
  | .ok (.withList l) => l
  | _ => []

/-- The redemption requests the exhaustive loop issues while visiting one
region: one per role-list entry, in list order. -/
def callsOf (cdkey : String) (rolesOf : String → RolesResponse)
    (r : String) : List RedeemCall :=
  (rolesListOf rolesOf r).map (fun a => ⟨a.game_uid, cdkey, r, a.game_biz⟩)

/-- The statement that the status entry (uid ↦ s) under region r of a
result table originates from a single redemption call of the trace tr: a
call targeting that region and account with the run's code, whose retcode
passed through the fixed table gives s. -/
def callOrigin (cdkey : String) (redeemOf : RedeemCall → RedeemResponse)
    (tr : List RedeemCall) (r : String) (uid : Nat) (s : String) : Prop :=
  ∃ c ∈ tr, c.region = r ∧ c.uid = uid ∧ c.cdkey = cdkey
    ∧ ∃ ret : Int, redeemOf c = .ok ret ∧ s = retcodeTable ret

/-- The invariant that every status entry of a result table has a call
origin in the trace. -/
def originOK (cdkey : String) (redeemOf : RedeemCall → RedeemResponse)
    (d : InfoRetrieval.ResultTable) (tr : List RedeemCall) : Prop :=
  ∀ r inner, (r, inner) ∈ d → ∀ uid s, (uid, s) ∈ inner →
    callOrigin cdkey redeemOf tr r uid s

/-- A region whose role list is empty is skipped by `cdkey.py`'s loop. -/
theorem Cdkey.mainLoop_cons_empty {cdkey : String}
    {rolesOf : String → RolesResponse} {redeemOf : RedeemCall → RedeemResponse}
    {region : String} {rest : List String}
    (h : rolesOf region = .ok (.withList [])) :
    Cdkey.mainLoop cdkey rolesOf redeemOf (region :: rest)
      = Cdkey.mainLoop cdkey rolesOf redeemOf rest := by
  simp only [Cdkey.mainLoop, h]

/-- Any run of empty-list regions is skipped by `cdkey.py`'s loop. -/
theorem Cdkey.cdkeyLoop_skipAll {cdkey : String}
    {rolesOf : String → RolesResponse} {redeemOf : RedeemCall → RedeemResponse}
    (pre rest : List String)
    (h : ∀ p ∈ pre, rolesOf p = .ok (.withList [])) :
    Cdkey.mainLoop cdkey rolesOf redeemOf (pre ++ rest)
      = Cdkey.mainLoop cdkey rolesOf redeemOf rest := by
  induction pre with
  | nil => rfl
  | cons p ps ih =>
    rw [List.cons_append, Cdkey.mainLoop_cons_empty (h p (by simp))]
    exact ih (fun q hq => h q (by simp [hq]))

/-- A region whose data payload is `null` or whose role list is empty is
skipped by `cd_key_retrieval.py`'s loop. -/
theorem CdKeyRetrieval.retrLoop_skipOne {cdkey : String}
    {rolesOf : String → RolesResponse} {redeemOf : RedeemCall → RedeemResponse}
    {region : String} {rest : List String}
    (h : rolesOf region = .ok .null ∨ rolesOf region = .ok (.withList [])) :
    CdKeyRetrieval.mainLoop cdkey rolesOf redeemOf (region :: rest)
      = CdKeyRetrieval.mainLoop cdkey rolesOf redeemOf rest := by
  rcases h with h | h <;> simp only [CdKeyRetrieval.mainLoop, h]

/-- Any run of null-or-empty regions is skipped by `cd_key_retrieval.py`'s
loop. -/
theorem CdKeyRetrieval.retrLoop_skipAll {cdkey : String}
    {rolesOf : String → RolesResponse} {redeemOf : RedeemCall → RedeemResponse}
    (pre rest : List String)
    (h : ∀ p ∈ pre, rolesOf p = .ok .null ∨ rolesOf p = .ok (.withList [])) :
    CdKeyRetrieval.mainLoop cdkey rolesOf redeemOf (pre ++ rest)
      = CdKeyRetrieval.mainLoop cdkey rolesOf redeemOf rest := by
  induction pre with
  | nil => rfl
  | cons p ps ih =>
    rw [List.cons_append, CdKeyRetrieval.retrLoop_skipOne (h p (by simp))]
    exact ih (fun q hq => h q (by simp [hq]))

/-- A region whose data payload is `null` or whose role list is empty is
skipped by `cdkey_info_retrieval.py`'s loop, leaving the accumulator
unchanged. -/
theorem InfoRetrieval.infoLoop_skipOne {cdkey : String}
    {rolesOf : String → RolesResponse} {redeemOf : RedeemCall → RedeemResponse}
    {region : String} {rest : List String}
    {acc : Option InfoRetrieval.ResultTable}
    (h : rolesOf region = .ok .null ∨ rolesOf region = .ok (.withList [])) :
    InfoRetrieval.mainLoop cdkey rolesOf redeemOf acc (region :: rest)
      = InfoRetrieval.mainLoop cdkey rolesOf redeemOf acc rest := by
  rcases h with h | h <;>
    simp only [InfoRetrieval.mainLoop, InfoRetrieval.processRoles, h,
      List.nil_append]

/-- Any run of null-or-empty regions is skipped by
`cdkey_info_retrieval.py`'s loop. -/
theorem InfoRetrieval.infoLoop_skipAll {cdkey : String}
    {rolesOf : String → RolesResponse} {redeemOf : RedeemCall → RedeemResponse}
    {acc : Option InfoRetrieval.ResultTable} (pre rest : List String)
    (h : ∀ p ∈ pre, rolesOf p = .ok .null ∨ rolesOf p = .ok (.withList [])) :
    InfoRetrieval.mainLoop cdkey rolesOf redeemOf acc (pre ++ rest)
      = InfoRetrieval.mainLoop cdkey rolesOf redeemOf acc rest := by
  induction pre with
  | nil => rfl
  | cons p ps ih =>
    rw [List.cons_append, InfoRetrieval.infoLoop_skipOne (h p (by simp))]
    exact ih (fun q hq => h q (by simp [hq]))

/-- C1: for every integer retcode, the redemption-check operations map 0 to
"success", -2001 to "expired", -2003 to "invalid", -2017 to
"already in use", and every other integer to "unknown", in all three
scripts. -/
theorem claim_C1 :
    (Cdkey.get_cdkey_info (.ok 0) = .ok "success"
      ∧ Cdkey.get_cdkey_info (.ok (-2001)) = .ok "expired"
      ∧ Cdkey.get_cdkey_info (.ok (-2003)) = .ok "invalid"
      ∧ Cdkey.get_cdkey_info (.ok (-2017)) = .ok "already in use")
    ∧ (CdKeyRetrieval.get_cdkey_status (.ok 0) = .ok "success"
      ∧ CdKeyRetrieval.get_cdkey_status (.ok (-2001)) = .ok "expired"
      ∧ CdKeyRetrieval.get_cdkey_status (.ok (-2003)) = .ok "invalid"
      ∧ CdKeyRetrieval.get_cdkey_status (.ok (-2017)) = .ok "already in use")
    ∧ (InfoRetrieval.get_cdkey_status (.ok 0) = .ok "success"
      ∧ InfoRetrieval.get_cdkey_status (.ok (-2001)) = .ok "expired"
      ∧ InfoRetrieval.get_cdkey_status (.ok (-2003)) = .ok "invalid"
      ∧ InfoRetrieval.get_cdkey_status (.ok (-2017)) = .ok "already in use")
    ∧ ∀ ret : Int, ret ∉ ([0, -2001, -2003, -2017] : List Int) →
        Cdkey.get_cdkey_info (.ok ret) = .ok "unknown"
        ∧ CdKeyRetrieval.get_cdkey_status (.ok ret) = .ok "unknown"
        ∧ InfoRetrieval.get_cdkey_status (.ok ret) = .ok "unknown" := by
  refine ⟨⟨rfl, rfl, rfl, rfl⟩, ⟨rfl, rfl, rfl, rfl⟩, ⟨rfl, rfl, rfl, rfl⟩,
    fun ret h => ?_⟩
  simp only [List.mem_cons, List.not_mem_nil, or_false, not_or] at h
  obtain ⟨h0, h1, h2, h3⟩ := h
  simp [Cdkey.get_cdkey_info, CdKeyRetrieval.get_cdkey_status,
    InfoRetrieval.get_cdkey_status, retcodeTable, Except.map, h0, h1, h2, h3]

/-- Witness for C1 at the spec's own example retcode 12345. -/
theorem claim_C1_witness :
    Cdkey.get_cdkey_info (.ok 12345) = .ok "unknown"
    ∧ CdKeyRetrieval.get_cdkey_status (.ok 12345) = .ok "unknown"
    ∧ InfoRetrieval.get_cdkey_status (.ok 12345) = .ok "unknown" :=
  claim_C1.2.2.2 12345 (by decide)

/-- C2 counterexample: with a `null` data payload for `os_usa`, the claim
says no variant raises, but `cdkey.py`'s `main` subscripts `None` at line
125 and raises `TypeError` instead of continuing, making no redemption
call. -/
theorem claim_C2_counterexample :
    rolesAllNull "os_usa" = .ok .null
    ∧ Cdkey.main "GENSHINGIFT" rolesAllNull redeemAllZero
        = (.error "TypeError", []) :=
  ⟨rfl, rfl⟩

/-- C2 amended: a region with an empty role list is skipped by every variant
without a redemption call or an error; a region whose data payload is `null`
is skipped likewise by `cd_key_retrieval.py` and `cdkey_info_retrieval.py`,
but makes `cdkey.py` raise a `TypeError` instead of continuing. -/
theorem claim_C2_amended (cdkey : String) (rolesOf : String → RolesResponse)
    (redeemOf : RedeemCall → RedeemResponse) (region : String)
    (rest : List String) (acc : Option InfoRetrieval.ResultTable) :
    (rolesOf region = .ok (.withList []) →
      Cdkey.mainLoop cdkey rolesOf redeemOf (region :: rest)
        = Cdkey.mainLoop cdkey rolesOf redeemOf rest
      ∧ CdKeyRetrieval.mainLoop cdkey rolesOf redeemOf (region :: rest)
        = CdKeyRetrieval.mainLoop cdkey rolesOf redeemOf rest
      ∧ InfoRetrieval.mainLoop cdkey rolesOf redeemOf acc (region :: rest)
        = InfoRetrieval.mainLoop cdkey rolesOf redeemOf acc rest)
    ∧ (rolesOf region = .ok .null →
      CdKeyRetrieval.mainLoop cdkey rolesOf redeemOf (region :: rest)
        = CdKeyRetrieval.mainLoop cdkey rolesOf redeemOf rest
      ∧ InfoRetrieval.mainLoop cdkey rolesOf redeemOf acc (region :: rest)
        = InfoRetrieval.mainLoop cdkey rolesOf redeemOf acc rest
      ∧ Cdkey.mainLoop cdkey rolesOf redeemOf (region :: rest)
        = (.error "TypeError", [])) := by
  constructor
  · intro h
    exact ⟨Cdkey.mainLoop_cons_empty h,
      CdKeyRetrieval.retrLoop_skipOne (Or.inr h),
      InfoRetrieval.infoLoop_skipOne (Or.inr h)⟩
  · intro h
    refine ⟨CdKeyRetrieval.retrLoop_skipOne (Or.inl h),
      InfoRetrieval.infoLoop_skipOne (Or.inl h), ?_⟩
    simp only [Cdkey.mainLoop, h]

/-- Witness for C2 (amended) at a concrete null-payload oracle. -/
theorem claim_C2_witness :
    CdKeyRetrieval.mainLoop "k" rolesAllNull redeemAllZero
        ("os_usa" :: ["os_euro"])
      = CdKeyRetrieval.mainLoop "k" rolesAllNull redeemAllZero ["os_euro"]
    ∧ InfoRetrieval.mainLoop "k" rolesAllNull redeemAllZero none
        ("os_usa" :: ["os_euro"])
      = InfoRetrieval.mainLoop "k" rolesAllNull redeemAllZero none ["os_euro"]
    ∧ Cdkey.mainLoop "k" rolesAllNull redeemAllZero ("os_usa" :: ["os_euro"])
      = (.error "TypeError", []) :=
  (claim_C2_amended "k" rolesAllNull redeemAllZero "os_usa" ["os_euro"]
    none).2 rfl

/-- C8 counterexample: when every region's data payload is `null` (absent),
`cdkey.py`'s `main` does not return Python `None` as the claim says: it
raises a `TypeError` on the very first region. -/
theorem claim_C8_counterexample :
    (∀ r ∈ regions, rolesAllNull r = .ok .null)
    ∧ (Cdkey.main "GENSHINGIFT" rolesAllNull redeemAllZero).1
        = .error "TypeError"
    ∧ (Except.error "TypeError" : Except String (Option String)) ≠ .ok none :=
  ⟨fun _ _ => rfl, rfl, by simp⟩

/-- C8 amended: `cd_key_retrieval.py` returns Python `None` (and makes no
redemption call) whenever every region's payload is `null` or has an empty
role list; `cdkey.py` does so only when every region's payload has an empty
role list, a `null` payload making it raise instead.  Either way the
declared return type `str` with its five documented status strings is
violated by the implicit `None`. -/
theorem claim_C8_amended (cdkey : String) (rolesOf : String → RolesResponse)
    (redeemOf : RedeemCall → RedeemResponse) :
    ((∀ r ∈ regions, rolesOf r = .ok .null ∨ rolesOf r = .ok (.withList [])) →
      CdKeyRetrieval.main cdkey rolesOf redeemOf = (.ok none, []))
    ∧ ((∀ r ∈ regions, rolesOf r = .ok (.withList [])) →
      Cdkey.main cdkey rolesOf redeemOf = (.ok none, [])) := by
  constructor
  · intro h
    rw [CdKeyRetrieval.main, ← List.append_nil regions,
      CdKeyRetrieval.retrLoop_skipAll regions [] h]
    rfl
  · intro h
    rw [Cdkey.main, ← List.append_nil regions,
      Cdkey.cdkeyLoop_skipAll regions [] h]
    rfl

/-- Witness for C8 (amended) at concrete all-null and all-empty oracles. -/
theorem claim_C8_witness :
    CdKeyRetrieval.main "k" rolesAllNull redeemAllZero = (.ok none, [])
    ∧ Cdkey.main "k" rolesAllEmpty redeemAllZero = (.ok none, []) :=
  ⟨(claim_C8_amended "k" rolesAllNull redeemAllZero).1
      (fun _ _ => Or.inl rfl),
    (claim_C8_amended "k" rolesAllEmpty redeemAllZero).2 (fun _ _ => rfl)⟩

/-- C9: when every region's role lookup yields a `null` payload or an empty
role list, the exhaustive variant `cdkey_info_retrieval.py` returns Python
`None` (the untouched accumulator), not an empty dict, and makes no
redemption call. -/
theorem claim_C9 (cdkey : String) (rolesOf : String → RolesResponse)
    (redeemOf : RedeemCall → RedeemResponse)
    (h : ∀ r ∈ regions, rolesOf r = .ok .null ∨ rolesOf r = .ok (.withList [])) :
    InfoRetrieval.main cdkey rolesOf redeemOf = (.ok none, [])
    ∧ (InfoRetrieval.main cdkey rolesOf redeemOf).1
        ≠ .ok (some ([] : InfoRetrieval.ResultTable)) := by
  have hmain : InfoRetrieval.main cdkey rolesOf redeemOf = (.ok none, []) := by
    rw [InfoRetrieval.main, ← List.append_nil regions,
      InfoRetrieval.infoLoop_skipAll regions [] h]
    rfl
  refine ⟨hmain, ?_⟩
  rw [hmain]
  simp

/-- Witness for C9 at a concrete all-null oracle. -/
theorem claim_C9_witness :
    InfoRetrieval.main "k" rolesAllNull redeemAllZero = (.ok none, [])
    ∧ (InfoRetrieval.main "k" rolesAllNull redeemAllZero).1
        ≠ .ok (some ([] : InfoRetrieval.ResultTable)) :=
  claim_C9 "k" rolesAllNull redeemAllZero (fun _ _ => Or.inl rfl)

/-- C3 counterexample: `os_euro` has a non-empty role list (so the premise
"at least one region has a non-empty role list" holds), yet the early-return
variant `cdkey.py` produces zero redemption results: it raises a `TypeError`
at `os_usa`, whose data payload is `null`, before reaching `os_euro`. -/
theorem claim_C3_counterexample :
    rolesNullThenEuro "os_usa" = .ok .null
    ∧ rolesNullThenEuro "os_euro" = .ok (.withList [⟨1, "hk4e_global"⟩])
    ∧ Cdkey.main "GENSHINGIFT" rolesNullThenEuro redeemAllZero
        = (.error "TypeError", []) :=
  ⟨rfl, rfl, rfl⟩

/-- C3 amended: when every region before the first one with a non-empty role
list answers with a `null` payload or an empty list, and the redemption call
for that region's first account succeeds, `cd_key_retrieval.py` returns
exactly one result, computed from the first account of that region (regions
visited in the fixed order os_usa, os_euro, os_asia, os_cht), issuing
exactly one redemption call; `cdkey.py` behaves the same only when the
earlier regions all have present-but-empty lists (a `null` payload makes it
raise instead). -/
theorem claim_C3_amended (cdkey : String) (rolesOf : String → RolesResponse)
    (redeemOf : RedeemCall → RedeemResponse) (pre post : List String)
    (r : String) (a : Role) (tl : List Role) (ret : Int)
    (hsplit : regions = pre ++ r :: post)
    (hpre : ∀ p ∈ pre, rolesOf p = .ok .null ∨ rolesOf p = .ok (.withList []))
    (hr : rolesOf r = .ok (.withList (a :: tl)))
    (hredeem : redeemOf ⟨a.game_uid, cdkey, r, a.game_biz⟩ = .ok ret) :
    CdKeyRetrieval.main cdkey rolesOf redeemOf
      = (.ok (some (retcodeTable ret)), [⟨a.game_uid, cdkey, r, a.game_biz⟩])
    ∧ ((∀ p ∈ pre, rolesOf p = .ok (.withList [])) →
      Cdkey.main cdkey rolesOf redeemOf
        = (.ok (some (retcodeTable ret)),
            [⟨a.game_uid, cdkey, r, a.game_biz⟩])) := by
  constructor
  · rw [CdKeyRetrieval.main, hsplit,
      CdKeyRetrieval.retrLoop_skipAll pre (r :: post) hpre]
    simp only [CdKeyRetrieval.mainLoop, hr,
      CdKeyRetrieval.get_cdkey_status, hredeem, Except.map]
  · intro hpre2
    rw [Cdkey.main, hsplit, Cdkey.cdkeyLoop_skipAll pre (r :: post) hpre2]
    simp only [Cdkey.mainLoop, hr, Cdkey.get_cdkey_info, hredeem, Except.map]

/-- Witness for C3 (amended): `os_usa` empty, `os_euro` holds account 7, the
redemption call answers retcode 0. -/
theorem claim_C3_witness :
    CdKeyRetrieval.main "k" rolesEmptyThenEuro redeemAllZero
      = (.ok (some "success"), [⟨7, "k", "os_euro", "hk4e_global"⟩])
    ∧ Cdkey.main "k" rolesEmptyThenEuro redeemAllZero
      = (.ok (some "success"), [⟨7, "k", "os_euro", "hk4e_global"⟩]) := by
  have h := claim_C3_amended "k" rolesEmptyThenEuro redeemAllZero
    ["os_usa"] ["os_asia", "os_cht"] "os_euro" ⟨7, "hk4e_global"⟩ [] 0
    rfl
    (fun p hp => by rw [List.mem_singleton] at hp; subst hp; exact Or.inr rfl)
    rfl rfl
  exact ⟨h.1, h.2
    (fun p hp => by rw [List.mem_singleton] at hp; subst hp; exact rfl)⟩

/-- `cdkey_info_retrieval.py`'s inner loop completes without exception when
every redemption call for the region's role list succeeds, issuing one call
per entry. -/
theorem InfoRetrieval.processRoles_ok (cdkey region : String)
    (redeemOf : RedeemCall → RedeemResponse) :
    ∀ (roles : List Role),
      (∀ b ∈ roles, ∀ e' : String,
        redeemOf ⟨b.game_uid, cdkey, region, b.game_biz⟩ ≠ .error e') →
      ∀ acc, ∃ acc',
        InfoRetrieval.processRoles cdkey region redeemOf acc roles
          = (.ok acc',
            roles.map (fun b => ⟨b.game_uid, cdkey, region, b.game_biz⟩)) := by
  intro roles
  induction roles with
  | nil => intro _ acc; exact ⟨acc, rfl⟩
  | cons role rest ih =>
    intro hok acc
    cases hc : redeemOf ⟨role.game_uid, cdkey, region, role.game_biz⟩ with
    | error e' => exact absurd hc (hok role (by simp) e')
    | ok ret =>
      obtain ⟨acc', hacc'⟩ := ih (fun b hb => hok b (by simp [hb]))
        (some (InfoRetrieval.record acc region role.game_uid
          (retcodeTable ret)))
      refine ⟨acc', ?_⟩
      rw [InfoRetrieval.processRoles]
      simp only [InfoRetrieval.get_cdkey_status, hc, Except.map, hacc',
        List.map_cons]

/-- When a redemption call fails mid-list, the inner loop stops with that
error, having issued one call per earlier entry plus the failing call — no
retry, no further calls. -/
theorem InfoRetrieval.processRoles_err (cdkey region e : String)
    (redeemOf : RedeemCall → RedeemResponse) :
    ∀ (l1 : List Role) (a : Role) (l2 : List Role),
      (∀ b ∈ l1, ∀ e' : String,
        redeemOf ⟨b.game_uid, cdkey, region, b.game_biz⟩ ≠ .error e') →
      redeemOf ⟨a.game_uid, cdkey, region, a.game_biz⟩ = .error e →
      ∀ acc,
        InfoRetrieval.processRoles cdkey region redeemOf acc (l1 ++ a :: l2)
          = (.error e,
            l1.map (fun b => ⟨b.game_uid, cdkey, region, b.game_biz⟩)
              ++ [⟨a.game_uid, cdkey, region, a.game_biz⟩]) := by
  intro l1
  induction l1 with
  | nil =>
    intro a l2 _ ha acc
    rw [List.nil_append, InfoRetrieval.processRoles]
    simp only [InfoRetrieval.get_cdkey_status, ha, Except.map, List.map_nil,
      List.nil_append]
  | cons b rest ih =>
    intro a l2 hok ha acc
    cases hc : redeemOf ⟨b.game_uid, cdkey, region, b.game_biz⟩ with
    | error e' => exact absurd hc (hok b (by simp) e')
    | ok ret =>
      rw [List.cons_append, InfoRetrieval.processRoles]
      simp only [InfoRetrieval.get_cdkey_status, hc, Except.map]
      rw [ih a l2 (fun x hx => hok x (by simp [hx])) ha _]
      simp

/-- A run of regions whose lookups succeed and whose redemption calls all
succeed is processed by `cdkey_info_retrieval.py`'s loop without exception:
the loop then continues on the remaining regions with some accumulator,
having issued exactly the prefix's per-entry calls. -/
theorem InfoRetrieval.infoLoop_okPre (cdkey : String)
    (rolesOf : String → RolesResponse)
    (redeemOf : RedeemCall → RedeemResponse) :
    ∀ (pre rest : List String),
      (∀ p ∈ pre, ∀ e' : String, rolesOf p ≠ .error e') →
      (∀ p ∈ pre, ∀ c ∈ callsOf cdkey rolesOf p, ∀ e' : String,
        redeemOf c ≠ .error e') →
      ∀ acc, ∃ acc',
        InfoRetrieval.mainLoop cdkey rolesOf redeemOf acc (pre ++ rest)
          = ((InfoRetrieval.mainLoop cdkey rolesOf redeemOf acc' rest).1,
            pre.flatMap (callsOf cdkey rolesOf)
              ++ (InfoRetrieval.mainLoop cdkey rolesOf redeemOf acc'
                rest).2) := by
  intro pre
  induction pre with
  | nil =>
    intro rest _ _ acc
    exact ⟨acc, by simp⟩
  | cons p ps ih =>
    intro rest hroles hredeem acc
    have hp := hroles p (by simp)
    cases hr : rolesOf p with
    | error e' => exact absurd hr (hp e')
    | ok d =>
      cases d with
      | null =>
        obtain ⟨acc', h'⟩ := ih rest (fun q hq => hroles q (by simp [hq]))
          (fun q hq => hredeem q (by simp [hq])) acc
        refine ⟨acc', ?_⟩
        rw [List.cons_append, InfoRetrieval.infoLoop_skipOne (Or.inl hr), h',
          List.flatMap_cons]
        have hnil : callsOf cdkey rolesOf p = [] := by
          simp [callsOf, rolesListOf, hr]
        rw [hnil, List.nil_append]
      | withList roles =>
        have hcalls : callsOf cdkey rolesOf p
            = roles.map (fun b => ⟨b.game_uid, cdkey, p, b.game_biz⟩) := by
          simp [callsOf, rolesListOf, hr]
        have hok : ∀ b ∈ roles, ∀ e' : String,
            redeemOf ⟨b.game_uid, cdkey, p, b.game_biz⟩ ≠ .error e' := by
          intro b hb e'
          refine hredeem p (by simp) _ ?_ e'
          rw [hcalls]
          exact List.mem_map_of_mem _ hb
        obtain ⟨acc1, hacc1⟩ := InfoRetrieval.processRoles_ok cdkey p
          redeemOf roles hok acc
        obtain ⟨acc', h'⟩ := ih rest (fun q hq => hroles q (by simp [hq]))
          (fun q hq => hredeem q (by simp [hq])) acc1
        refine ⟨acc', ?_⟩
        rw [List.cons_append, InfoRetrieval.mainLoop]
        simp only [hr, hacc1]
        rw [h', List.flatMap_cons, hcalls]
        simp [List.append_assoc]

/-- `cdkey.py`'s loop issues at most one redemption call in any run: its
trace is empty or a single call. -/
theorem Cdkey.cdkeyLoop_trace_small (cdkey : String)
    (rolesOf : String → RolesResponse)
    (redeemOf : RedeemCall → RedeemResponse) :
    ∀ rl : List String,
      (Cdkey.mainLoop cdkey rolesOf redeemOf rl).2 = []
      ∨ ∃ c, (Cdkey.mainLoop cdkey rolesOf redeemOf rl).2 = [c] := by
  intro rl
  induction rl with
  | nil => exact Or.inl rfl
  | cons region rest ih =>
    cases hr : rolesOf region with
    | error e =>
      rw [Cdkey.mainLoop]
      simp only [hr]
      exact Or.inl trivial
    | ok d =>
      cases d with
      | null =>
        rw [Cdkey.mainLoop]
        simp only [hr]
        exact Or.inl trivial
      | withList roles =>
        cases roles with
        | nil =>
          rw [Cdkey.mainLoop]
          simp only [hr]
          exact ih
        | cons first tl =>
          rw [Cdkey.mainLoop]
          simp only [hr]
          cases hc : redeemOf ⟨first.game_uid, cdkey, region,
              first.game_biz⟩ with
          | error e =>
            simp only [Cdkey.get_cdkey_info, hc, Except.map]
            exact Or.inr ⟨_, rfl⟩
          | ok ret =>
            simp only [Cdkey.get_cdkey_info, hc, Except.map]
            exact Or.inr ⟨_, rfl⟩

/-- Hence `cdkey.py` never issues the same call twice within one run. -/
theorem Cdkey.cdkeyLoop_count_le_one (cdkey : String)
    (rolesOf : String → RolesResponse)
    (redeemOf : RedeemCall → RedeemResponse) (c : RedeemCall) :
    (Cdkey.main cdkey rolesOf redeemOf).2.count c ≤ 1 := by
  rcases Cdkey.cdkeyLoop_trace_small cdkey rolesOf redeemOf regions with
    h | ⟨c', h⟩
  · rw [Cdkey.main, h]
    simp
  · rw [Cdkey.main, h]
    exact le_trans (List.count_le_length _ _) (by simp)

/-- C7: remote failures are fatal and unhandled in every variant, wherever
they occur.  Early-return variants: after any run of skippable regions, a
role-lookup failure becomes the driver's outcome with no redemption call,
and a redemption failure at the first account becomes the outcome with
exactly that one call (for `cdkey.py` the skippable prefix must consist of
present-but-empty lists); these are the only failure points those variants
can reach.  Exhaustive variant: after ANY prefix of regions whose lookups
and per-entry redemption calls all succeed (including fully processed
non-empty regions), a role-lookup failure at the next region becomes the
run's outcome with exactly the prefix's calls issued, and a redemption
failure at ANY position of the next region's role list becomes the run's
outcome with the prefix's calls, the earlier entries' calls and the single
failing call issued — no retry, no conversion to a status anywhere. -/
theorem claim_C7 (cdkey : String) (rolesOf : String → RolesResponse)
    (redeemOf : RedeemCall → RedeemResponse) (e : String) :
    (∀ (pre post : List String) (r : String),
      regions = pre ++ r :: post →
      (∀ p ∈ pre, rolesOf p = .ok .null ∨ rolesOf p = .ok (.withList [])) →
      (rolesOf r = .error e →
        CdKeyRetrieval.main cdkey rolesOf redeemOf = (.error e, [])
        ∧ ((∀ p ∈ pre, rolesOf p = .ok (.withList [])) →
          Cdkey.main cdkey rolesOf redeemOf = (.error e, [])))
      ∧ (∀ a tl, rolesOf r = .ok (.withList (a :: tl)) →
        redeemOf ⟨a.game_uid, cdkey, r, a.game_biz⟩ = .error e →
        CdKeyRetrieval.main cdkey rolesOf redeemOf
          = (.error e, [⟨a.game_uid, cdkey, r, a.game_biz⟩])
        ∧ ((∀ p ∈ pre, rolesOf p = .ok (.withList [])) →
          Cdkey.main cdkey rolesOf redeemOf
            = (.error e, [⟨a.game_uid, cdkey, r, a.game_biz⟩]))))
    ∧ (∀ (pre post : List String) (r : String),
      regions = pre ++ r :: post →
      (∀ p ∈ pre, ∀ e' : String, rolesOf p ≠ .error e') →
      (∀ p ∈ pre, ∀ c ∈ callsOf cdkey rolesOf p, ∀ e' : String,
        redeemOf c ≠ .error e') →
      (rolesOf r = .error e →
        InfoRetrieval.main cdkey rolesOf redeemOf
          = (.error e, pre.flatMap (callsOf cdkey rolesOf)))
      ∧ (∀ (l1 : List Role) (a : Role) (l2 : List Role),
        rolesOf r = .ok (.withList (l1 ++ a :: l2)) →
        (∀ b ∈ l1, ∀ e' : String,
          redeemOf ⟨b.game_uid, cdkey, r, b.game_biz⟩ ≠ .error e') →
        redeemOf ⟨a.game_uid, cdkey, r, a.game_biz⟩ = .error e →
        InfoRetrieval.main cdkey rolesOf redeemOf
          = (.error e, pre.flatMap (callsOf cdkey rolesOf)
              ++ (l1.map (fun b => ⟨b.game_uid, cdkey, r, b.game_biz⟩)
                ++ [⟨a.game_uid, cdkey, r, a.game_biz⟩])))) := by
  constructor
  · intro pre post r hsplit hpre
    constructor
    · intro hr
      constructor
      · rw [CdKeyRetrieval.main, hsplit,
          CdKeyRetrieval.retrLoop_skipAll pre (r :: post) hpre]
        simp only [CdKeyRetrieval.mainLoop, hr]
      · intro hpre2
        rw [Cdkey.main, hsplit, Cdkey.cdkeyLoop_skipAll pre (r :: post) hpre2]
        simp only [Cdkey.mainLoop, hr]
    · intro a tl hr hredeem
      constructor
      · rw [CdKeyRetrieval.main, hsplit,
          CdKeyRetrieval.retrLoop_skipAll pre (r :: post) hpre]
        simp only [CdKeyRetrieval.mainLoop, hr,
          CdKeyRetrieval.get_cdkey_status, hredeem, Except.map]
      · intro hpre2
        rw [Cdkey.main, hsplit, Cdkey.cdkeyLoop_skipAll pre (r :: post) hpre2]
        simp only [Cdkey.mainLoop, hr, Cdkey.get_cdkey_info, hredeem,
          Except.map]
  · intro pre post r hsplit hroles hcalls
    obtain ⟨acc', hpre'⟩ := InfoRetrieval.infoLoop_okPre cdkey rolesOf
      redeemOf pre (r :: post) hroles hcalls none
    constructor
    · intro hr
      rw [InfoRetrieval.main, hsplit, hpre', InfoRetrieval.mainLoop]
      simp only [hr, List.append_nil]
    · intro l1 a l2 hr hok ha
      rw [InfoRetrieval.main, hsplit, hpre', InfoRetrieval.mainLoop]
      simp only [hr,
        InfoRetrieval.processRoles_err cdkey r e redeemOf l1 a l2 hok ha acc']

/-- Witness for C7: a connection error on the first lookup, a timeout on the
first redemption call, and a lookup failure at `os_euro` after `os_usa` was
fully processed (two successful calls) each become the run's outcome. -/
theorem claim_C7_witness :
    CdKeyRetrieval.main "k" rolesAllErr redeemAllZero
      = (.error "ConnectionError", [])
    ∧ CdKeyRetrieval.main "k" rolesTwoUsa redeemAllErr
      = (.error "Timeout", [⟨1, "k", "os_usa", "hk4e_global"⟩])
    ∧ InfoRetrieval.main "k" rolesUsaThenErr redeemAllZero
      = (.error "ConnectionError",
        ["os_usa"].flatMap (callsOf "k" rolesUsaThenErr)) := by
  refine ⟨((((claim_C7 "k" rolesAllErr redeemAllZero "ConnectionError").1
    [] ["os_euro", "os_asia", "os_cht"] "os_usa" rfl (by simp)).1) rfl).1,
    ?_, ?_⟩
  · exact (((claim_C7 "k" rolesTwoUsa redeemAllErr "Timeout").1
      [] ["os_euro", "os_asia", "os_cht"] "os_usa" rfl (by simp)).2
      ⟨1, "hk4e_global"⟩ [⟨2, "hk4e_global"⟩] rfl rfl).1
  · exact (((claim_C7 "k" rolesUsaThenErr redeemAllZero
      "ConnectionError").2 ["os_usa"] ["os_asia", "os_cht"] "os_euro" rfl
      (fun p hp e' hc => by
        rw [List.mem_singleton] at hp
        subst hp
        exact Except.noConfusion hc)
      (fun p _ c _ e' hc => Except.noConfusion hc)).1) rfl

/-- C4: when role lookup gives two accounts (with distinct ids) in
`os_usa` and no accounts elsewhere, and both redemption calls succeed, the
exhaustive variant returns a table with exactly the two entries under
"os_usa", one per account id, each holding that account's mapped status, and
issues exactly those two redemption calls. -/
theorem claim_C4 (cdkey : String) (rolesOf : String → RolesResponse)
    (redeemOf : RedeemCall → RedeemResponse)
    (uid1 uid2 : Nat) (biz1 biz2 : String) (ret1 ret2 : Int)
    (hne : uid1 ≠ uid2)
    (husa : rolesOf "os_usa" = .ok (.withList [⟨uid1, biz1⟩, ⟨uid2, biz2⟩]))
    (hrest : ∀ r ∈ (["os_euro", "os_asia", "os_cht"] : List String),
      rolesOf r = .ok .null ∨ rolesOf r = .ok (.withList []))
    (hred1 : redeemOf ⟨uid1, cdkey, "os_usa", biz1⟩ = .ok ret1)
    (hred2 : redeemOf ⟨uid2, cdkey, "os_usa", biz2⟩ = .ok ret2) :
    InfoRetrieval.main cdkey rolesOf redeemOf
      = (.ok (some [("os_usa",
          [(uid1, retcodeTable ret1), (uid2, retcodeTable ret2)])]),
        [⟨uid1, cdkey, "os_usa", biz1⟩, ⟨uid2, cdkey, "os_usa", biz2⟩]) := by
  have h1 := hrest "os_euro" (by simp)
  have h2 := hrest "os_asia" (by simp)
  have h3 := hrest "os_cht" (by simp)
  rw [InfoRetrieval.main]
  show InfoRetrieval.mainLoop cdkey rolesOf redeemOf none
      ("os_usa" :: ["os_euro", "os_asia", "os_cht"]) = _
  rw [InfoRetrieval.mainLoop, husa]
  simp only [InfoRetrieval.processRoles, InfoRetrieval.get_cdkey_status,
    hred1, hred2, Except.map, InfoRetrieval.record, InfoRetrieval.updInner,
    InfoRetrieval.lookupOuter, InfoRetrieval.setOuter, Option.getD]
  rw [InfoRetrieval.infoLoop_skipOne h1, InfoRetrieval.infoLoop_skipOne h2,
    InfoRetrieval.infoLoop_skipOne h3]
  simp [InfoRetrieval.mainLoop, hne]

/-- Witness for C4: accounts 1 and 2 in `os_usa`, both redemptions answering
retcode 0. -/
theorem claim_C4_witness :
    InfoRetrieval.main "k" rolesTwoUsa redeemAllZero
      = (.ok (some [("os_usa", [(1, "success"), (2, "success")])]),
        [⟨1, "k", "os_usa", "hk4e_global"⟩,
          ⟨2, "k", "os_usa", "hk4e_global"⟩]) :=
  claim_C4 "k" rolesTwoUsa redeemAllZero 1 2 "hk4e_global" "hk4e_global" 0 0
    (by decide) rfl
    (fun r hr => by
      simp only [List.mem_cons, List.not_mem_nil, or_false] at hr
      rcases hr with h | h | h <;> subst h <;> exact Or.inl rfl)
    rfl rfl

/-- When no redemption call fails, the inner loop of the exhaustive variant
issues exactly one call per role-list entry, in order, and completes. -/
theorem InfoRetrieval.processRoles_trace (cdkey region : String)
    (redeemOf : RedeemCall → RedeemResponse)
    (hredeem : ∀ (c : RedeemCall) (e : String), redeemOf c ≠ .error e) :
    ∀ (roles : List Role) (acc : Option InfoRetrieval.ResultTable),
      (InfoRetrieval.processRoles cdkey region redeemOf acc roles).2
        = roles.map (fun a => ⟨a.game_uid, cdkey, region, a.game_biz⟩)
      ∧ ∃ acc', (InfoRetrieval.processRoles cdkey region redeemOf acc
          roles).1 = .ok acc' := by
  intro roles
  induction roles with
  | nil => exact fun acc => ⟨rfl, ⟨acc, rfl⟩⟩
  | cons role rest ih =>
    intro acc
    cases hc : redeemOf ⟨role.game_uid, cdkey, region, role.game_biz⟩ with
    | error e => exact absurd hc (hredeem _ e)
    | ok ret =>
      constructor
      · simp only [InfoRetrieval.processRoles, InfoRetrieval.get_cdkey_status,
          hc, Except.map, List.map_cons]
        exact congrArg _ ((ih _).1)
      · simp only [InfoRetrieval.processRoles, InfoRetrieval.get_cdkey_status,
          hc, Except.map]
        exact (ih _).2

/-- When no remote call fails, the exhaustive variant's call trace is the
concatenation, over the visited regions in order, of one call per role-list
entry. -/
theorem InfoRetrieval.mainLoop_trace (cdkey : String)
    (rolesOf : String → RolesResponse) (redeemOf : RedeemCall → RedeemResponse)
    (hredeem : ∀ (c : RedeemCall) (e : String), redeemOf c ≠ .error e) :
    ∀ (rl : List String), (∀ r ∈ rl, ∀ e : String, rolesOf r ≠ .error e) →
    ∀ acc, (InfoRetrieval.mainLoop cdkey rolesOf redeemOf acc rl).2
      = rl.flatMap (callsOf cdkey rolesOf) := by
  intro rl
  induction rl with
  | nil => intro _ acc; rfl
  | cons region rest ih =>
    intro hok acc
    have hR := hok region (by simp)
    cases hr : rolesOf region with
    | error e => exact absurd hr (hR e)
    | ok d =>
      cases d with
      | null =>
        rw [InfoRetrieval.infoLoop_skipOne (Or.inl hr), List.flatMap_cons]
        have : callsOf cdkey rolesOf region = [] := by
          simp [callsOf, rolesListOf, hr]
        rw [this, List.nil_append]
        exact ih (fun r h e => hok r (by simp [h]) e) acc
      | withList roles =>
        have hpr := InfoRetrieval.processRoles_trace cdkey region redeemOf
          hredeem roles acc
        obtain ⟨htr, ⟨acc', hacc⟩⟩ := hpr
        have hcalls : callsOf cdkey rolesOf region
            = roles.map (fun a => ⟨a.game_uid, cdkey, region, a.game_biz⟩) := by
          simp [callsOf, rolesListOf, hr]
        simp only [InfoRetrieval.mainLoop, hr]
        rw [List.flatMap_cons, hcalls]
        rcases hps : InfoRetrieval.processRoles cdkey region redeemOf acc
          roles with ⟨res, tr⟩
        rw [hps] at htr hacc
        simp only at htr hacc
        subst htr
        subst hacc
        simp only []
        rw [ih (fun r h e => hok r (by simp [h]) e) acc']

/-- Every call the loop issues while visiting region `r` carries `r` as its
`region` query parameter. -/
theorem callsOf_region (cdkey : String) (rolesOf : String → RolesResponse)
    (r : String) (c : RedeemCall) (hc : c ∈ callsOf cdkey rolesOf r) :
    c.region = r := by
  simp only [callsOf, List.mem_map] at hc
  obtain ⟨a, _, rfl⟩ := hc
  rfl

/-- Counting a fixed call across the per-region blocks of the trace reduces
to counting inside its own region's block, since the region list has no
duplicates. -/
theorem count_flatMap_callsOf (cdkey : String)
    (rolesOf : String → RolesResponse) (c : RedeemCall) :
    ∀ (rl : List String), rl.Nodup → c.region ∈ rl →
      (rl.flatMap (callsOf cdkey rolesOf)).count c
        = (callsOf cdkey rolesOf c.region).count c := by
  intro rl
  induction rl with
  | nil => intro _ h; simp at h
  | cons r' rest ih =>
    intro hnd hmem
    obtain ⟨hni, hnd'⟩ := List.nodup_cons.mp hnd
    rw [List.flatMap_cons, List.count_append]
    rcases List.mem_cons.mp hmem with heq | hmem'
    · have hz : (rest.flatMap (callsOf cdkey rolesOf)).count c = 0 := by
        rw [List.count_eq_zero]
        intro habs
        obtain ⟨r'', hr'', hcr⟩ := List.mem_flatMap.mp habs
        have hreg := callsOf_region cdkey rolesOf r'' c hcr
        rw [← hreg, heq] at hr''
        exact hni hr''
      rw [hz, heq, Nat.add_zero]
    · have hz : (callsOf cdkey rolesOf r').count c = 0 := by
        rw [List.count_eq_zero]
        intro habs
        have := callsOf_region cdkey rolesOf r' c habs
        rw [this] at hmem'
        exact hni hmem'
      rw [hz, ih hnd' hmem', Nat.zero_add]

/-- Inside one region's block, an account whose id is distinct from every
other entry's id is called exactly once. -/
theorem count_map_roles (cdkey r : String) :
    ∀ (l : List Role),
      l.Pairwise (fun a b => a.game_uid ≠ b.game_uid) →
      ∀ a ∈ l,
        ((l.map (fun b =>
            (⟨b.game_uid, cdkey, r, b.game_biz⟩ : RedeemCall))).count
          ⟨a.game_uid, cdkey, r, a.game_biz⟩) = 1 := by
  intro l
  induction l with
  | nil => intro _ a ha; simp at ha
  | cons b rest ih =>
    intro hpw a ha
    obtain ⟨hb, hpw'⟩ := List.pairwise_cons.mp hpw
    rcases List.mem_cons.mp ha with heq | hmem
    · subst heq
      have hz : ((rest.map (fun b =>
          (⟨b.game_uid, cdkey, r, b.game_biz⟩ : RedeemCall))).count
            ⟨a.game_uid, cdkey, r, a.game_biz⟩) = 0 := by
        rw [List.count_eq_zero]
        intro habs
        obtain ⟨x, hx, hxe⟩ := List.mem_map.mp habs
        injection hxe with h1 h2 h3 h4
        exact hb x hx h1.symm
      simp [List.count_cons, hz]
    · have hne : b.game_uid ≠ a.game_uid := hb a hmem
      have hbeq : ((⟨b.game_uid, cdkey, r, b.game_biz⟩ : RedeemCall)
          == ⟨a.game_uid, cdkey, r, a.game_biz⟩) = false := by
        apply beq_eq_false_iff_ne.mpr
        intro h
        injection h with h1 h2 h3 h4
        exact hne h1
      simp only [List.map_cons, List.count_cons, hbeq]
      rw [ih hpw' a hmem]
      simp

/-- C5 counterexample: when `os_usa`'s role lookup lists the same account id
twice, the exhaustive driver issues two redemption calls for the single
discovered (region, account) pair — the claim says never more than one. -/
theorem claim_C5_counterexample :
    rolesDupUsa "os_usa"
      = .ok (.withList [⟨1, "hk4e_global"⟩, ⟨1, "hk4e_global"⟩])
    ∧ ((InfoRetrieval.main "k" rolesDupUsa redeemAllZero).2.count
        ⟨1, "k", "os_usa", "hk4e_global"⟩) = 2 :=
  ⟨rfl, rfl⟩

/-- C5 amended: the exhaustive variant issues one redemption call per
role-list entry, not per distinct pair.  When every remote call succeeds,
its call trace is exactly the concatenation over regions (in order) of one
call per entry of that region's role list; hence, whenever a region's role
list carries pairwise-distinct account ids, each discovered
(region, account) pair of that region is called exactly once, while a
repeated account id causes duplicate calls for that pair.  The early-return
variant `cdkey.py` issues at most one redemption call per run — its trace
is empty or a single call — so it never calls any pair more than once, and
the single pair it processes is called exactly once. -/
theorem claim_C5_amended (cdkey : String) (rolesOf : String → RolesResponse)
    (redeemOf : RedeemCall → RedeemResponse) :
    ((∀ r ∈ regions, ∀ e : String, rolesOf r ≠ .error e) →
      (∀ (c : RedeemCall) (e : String), redeemOf c ≠ .error e) →
      (InfoRetrieval.main cdkey rolesOf redeemOf).2
        = regions.flatMap (callsOf cdkey rolesOf)
      ∧ ∀ r ∈ regions,
          (rolesListOf rolesOf r).Pairwise
            (fun a b => a.game_uid ≠ b.game_uid) →
          ∀ a ∈ rolesListOf rolesOf r,
            ((InfoRetrieval.main cdkey rolesOf redeemOf).2.count
              ⟨a.game_uid, cdkey, r, a.game_biz⟩) = 1)
    ∧ ((Cdkey.main cdkey rolesOf redeemOf).2 = []
        ∨ ∃ c, (Cdkey.main cdkey rolesOf redeemOf).2 = [c])
    ∧ (∀ c : RedeemCall,
        (Cdkey.main cdkey rolesOf redeemOf).2.count c ≤ 1) := by
  refine ⟨fun hroles hredeem => ?_,
    Cdkey.cdkeyLoop_trace_small cdkey rolesOf redeemOf regions,
    fun c => Cdkey.cdkeyLoop_count_le_one cdkey rolesOf redeemOf c⟩
  have htr : (InfoRetrieval.main cdkey rolesOf redeemOf).2
      = regions.flatMap (callsOf cdkey rolesOf) :=
    InfoRetrieval.mainLoop_trace cdkey rolesOf redeemOf hredeem regions
      hroles none
  refine ⟨htr, fun r hr hpw a ha => ?_⟩
  rw [htr]
  have hnd : regions.Nodup := by decide
  rw [count_flatMap_callsOf cdkey rolesOf ⟨a.game_uid, cdkey, r, a.game_biz⟩
    regions hnd hr]
  exact count_map_roles cdkey r (rolesListOf rolesOf r) hpw a ha

/-- Witness for C5 (amended): two distinct accounts in `os_usa`, all calls
succeeding; the exhaustive trace is the per-region concatenation, account 1
is called exactly once, and `cdkey.py` calls no pair more than once. -/
theorem claim_C5_witness :
    (InfoRetrieval.main "k" rolesTwoUsa redeemAllZero).2
      = regions.flatMap (callsOf "k" rolesTwoUsa)
    ∧ ((InfoRetrieval.main "k" rolesTwoUsa redeemAllZero).2.count
        ⟨1, "k", "os_usa", "hk4e_global"⟩) = 1
    ∧ ((Cdkey.main "k" rolesTwoUsa redeemAllZero).2.count
        ⟨1, "k", "os_usa", "hk4e_global"⟩) ≤ 1 := by
  have h := claim_C5_amended "k" rolesTwoUsa redeemAllZero
  have h1 := h.1
    (fun r _ e hc => by
      unfold rolesTwoUsa at hc
      split at hc <;> exact Except.noConfusion hc)
    (fun c e hc => Except.noConfusion hc)
  exact ⟨h1.1, h1.2 "os_usa" (by decide) (by decide) ⟨1, "hk4e_global"⟩
    (by decide), h.2.2 ⟨1, "k", "os_usa", "hk4e_global"⟩⟩

/-- A call origin stays valid when the trace grows. -/
theorem callOrigin_mono (cdkey : String)
    (redeemOf : RedeemCall → RedeemResponse) (tr tr' : List RedeemCall)
    (hsub : ∀ c ∈ tr, c ∈ tr') (r : String) (uid : Nat) (s : String)
    (h : callOrigin cdkey redeemOf tr r uid s) :
    callOrigin cdkey redeemOf tr' r uid s := by
  obtain ⟨c, hc, hrest⟩ := h
  exact ⟨c, hsub c hc, hrest⟩

/-- The origin invariant stays valid when the trace grows. -/
theorem originOK_mono (cdkey : String)
    (redeemOf : RedeemCall → RedeemResponse)
    (d : InfoRetrieval.ResultTable) (tr tr' : List RedeemCall)
    (hsub : ∀ c ∈ tr, c ∈ tr')
    (h : originOK cdkey redeemOf d tr) :
    originOK cdkey redeemOf d tr' :=
  fun r inner hd uid s hi =>
    callOrigin_mono cdkey redeemOf tr tr' hsub r uid s (h r inner hd uid s hi)

/-- An entry of the updated inner dict is the new binding or an old one. -/
theorem InfoRetrieval.mem_updInner (l : InfoRetrieval.InnerDict) (k : Nat)
    (v : String) (p : Nat × String)
    (hp : p ∈ InfoRetrieval.updInner l k v) : p = (k, v) ∨ p ∈ l := by
  induction l with
  | nil => simpa [InfoRetrieval.updInner] using hp
  | cons kv rest ih =>
    rcases kv with ⟨k', v'⟩
    by_cases h : k' = k
    · rw [InfoRetrieval.updInner, if_pos h] at hp
      rcases List.mem_cons.mp hp with h1 | h1
      · exact Or.inl h1
      · exact Or.inr (List.mem_cons_of_mem _ h1)
    · rw [InfoRetrieval.updInner, if_neg h] at hp
      rcases List.mem_cons.mp hp with h1 | h1
      · exact Or.inr (h1 ▸ List.mem_cons_self _ _)
      · rcases ih h1 with h2 | h2
        · exact Or.inl h2
        · exact Or.inr (List.mem_cons_of_mem _ h2)

/-- An entry of the updated outer dict is the new binding or an old one. -/
theorem InfoRetrieval.mem_setOuter (d : InfoRetrieval.ResultTable)
    (r : String) (inner : InfoRetrieval.InnerDict) (q : String × InfoRetrieval.InnerDict)
    (hq : q ∈ InfoRetrieval.setOuter d r inner) : q = (r, inner) ∨ q ∈ d := by
  induction d with
  | nil => simpa [InfoRetrieval.setOuter] using hq
  | cons ri rest ih =>
    rcases ri with ⟨r', i'⟩
    by_cases h : r' = r
    · rw [InfoRetrieval.setOuter, if_pos h] at hq
      rcases List.mem_cons.mp hq with h1 | h1
      · exact Or.inl h1
      · exact Or.inr (List.mem_cons_of_mem _ h1)
    · rw [InfoRetrieval.setOuter, if_neg h] at hq
      rcases List.mem_cons.mp hq with h1 | h1
      · exact Or.inr (h1 ▸ List.mem_cons_self _ _)
      · rcases ih h1 with h2 | h2
        · exact Or.inl h2
        · exact Or.inr (List.mem_cons_of_mem _ h2)

/-- A successful outer lookup returns an entry of the dict. -/
theorem InfoRetrieval.lookupOuter_mem (d : InfoRetrieval.ResultTable)
    (r : String) (i : InfoRetrieval.InnerDict)
    (h : InfoRetrieval.lookupOuter d r = some i) : (r, i) ∈ d := by
  induction d with
  | nil => simp [InfoRetrieval.lookupOuter] at h
  | cons ri rest ih =>
    rcases ri with ⟨r', i'⟩
    by_cases hr : r' = r
    · rw [InfoRetrieval.lookupOuter, if_pos hr] at h
      injection h with h
      subst hr
      subst h
      exact List.mem_cons_self _ _
    · rw [InfoRetrieval.lookupOuter, if_neg hr] at h
      exact List.mem_cons_of_mem _ (ih h)

/-- Recording one redemption outcome preserves the origin invariant, the
new entry originating from the call just issued. -/
theorem originOK_record (cdkey region biz : String) (uid : Nat) (ret : Int)
    (redeemOf : RedeemCall → RedeemResponse)
    (acc : Option InfoRetrieval.ResultTable) (tr : List RedeemCall)
    (hacc : originOK cdkey redeemOf (acc.getD []) tr)
    (hc : redeemOf ⟨uid, cdkey, region, biz⟩ = .ok ret) :
    originOK cdkey redeemOf
      (InfoRetrieval.record acc region uid (retcodeTable ret))
      (tr ++ [⟨uid, cdkey, region, biz⟩]) := by
  intro r inner hmem uid' s hmem'
  rcases InfoRetrieval.mem_setOuter _ _ _ _ hmem with heq | hold
  · injection heq with hr hi
    subst hr
    subst hi
    rcases InfoRetrieval.mem_updInner _ _ _ _ hmem' with heq2 | hold2
    · injection heq2 with hu hs
      exact ⟨⟨uid, cdkey, r, biz⟩, by simp, rfl, hu.symm, rfl, ret, hc, hs⟩
    · cases hl : InfoRetrieval.lookupOuter (acc.getD []) r with
      | none => rw [hl] at hold2; simp at hold2
      | some i0 =>
        rw [hl] at hold2
        have hin := InfoRetrieval.lookupOuter_mem _ _ _ hl
        exact callOrigin_mono cdkey redeemOf tr _
          (fun c hcm => List.mem_append_left _ hcm) r uid' s
          (hacc r i0 hin uid' s hold2)
  · exact callOrigin_mono cdkey redeemOf tr _
      (fun c hcm => List.mem_append_left _ hcm) r uid' s
      (hacc r inner hold uid' s hmem')

/-- The inner loop preserves the origin invariant: every entry of the
resulting accumulator originates from a call in the old or new trace. -/
theorem InfoRetrieval.processRoles_origin (cdkey region : String)
    (redeemOf : RedeemCall → RedeemResponse) :
    ∀ (roles : List Role) (acc : Option InfoRetrieval.ResultTable)
      (tr : List RedeemCall),
    originOK cdkey redeemOf (acc.getD []) tr →
    ∀ acc', (InfoRetrieval.processRoles cdkey region redeemOf acc
        roles).1 = .ok acc' →
    originOK cdkey redeemOf (acc'.getD [])
      (tr ++ (InfoRetrieval.processRoles cdkey region redeemOf acc
        roles).2) := by
  intro roles
  induction roles with
  | nil =>
    intro acc tr h acc' hacc'
    simp only [InfoRetrieval.processRoles] at hacc' ⊢
    injection hacc' with he
    subst he
    simpa using h
  | cons role rest ih =>
    intro acc tr h acc' hacc'
    cases hc : redeemOf ⟨role.game_uid, cdkey, region, role.game_biz⟩ with
    | error e =>
      rw [InfoRetrieval.processRoles] at hacc'
      simp only [InfoRetrieval.get_cdkey_status, hc, Except.map] at hacc'
      exact absurd hacc' (by simp)
    | ok ret =>
      have hrec := originOK_record cdkey region role.game_biz role.game_uid
        ret redeemOf acc tr h hc
      have hrec' : originOK cdkey redeemOf
          ((some (InfoRetrieval.record acc region role.game_uid
            (retcodeTable ret))).getD [])
          (tr ++ [⟨role.game_uid, cdkey, region, role.game_biz⟩]) := by
        simpa using hrec
      have hstep := ih (some (InfoRetrieval.record acc region role.game_uid
        (retcodeTable ret))) (tr ++ [⟨role.game_uid, cdkey, region,
        role.game_biz⟩]) hrec' acc'
      rw [InfoRetrieval.processRoles] at hacc' ⊢
      simp only [InfoRetrieval.get_cdkey_status, hc, Except.map] at hacc' ⊢
      have := hstep hacc'
      rwa [List.append_assoc, List.singleton_append] at this

/-- The region loop preserves the origin invariant. -/
theorem InfoRetrieval.mainLoop_origin (cdkey : String)
    (rolesOf : String → RolesResponse)
    (redeemOf : RedeemCall → RedeemResponse) :
    ∀ (rl : List String) (acc : Option InfoRetrieval.ResultTable)
      (tr : List RedeemCall),
    originOK cdkey redeemOf (acc.getD []) tr →
    ∀ acc', (InfoRetrieval.mainLoop cdkey rolesOf redeemOf acc rl).1
      = .ok acc' →
    originOK cdkey redeemOf (acc'.getD [])
      (tr ++ (InfoRetrieval.mainLoop cdkey rolesOf redeemOf acc rl).2) := by
  intro rl
  induction rl with
  | nil =>
    intro acc tr h acc' hacc'
    simp only [InfoRetrieval.mainLoop] at hacc' ⊢
    injection hacc' with he
    subst he
    simpa using h
  | cons region rest ih =>
    intro acc tr h acc' hacc'
    cases hr : rolesOf region with
    | error e =>
      rw [InfoRetrieval.mainLoop] at hacc'
      simp only [hr] at hacc'
      exact absurd hacc' (by simp)
    | ok d =>
      cases d with
      | null =>
        rw [InfoRetrieval.mainLoop] at hacc' ⊢
        simp only [hr] at hacc' ⊢
        exact ih acc tr h acc' hacc'
      | withList roles =>
        rw [InfoRetrieval.mainLoop] at hacc' ⊢
        simp only [hr] at hacc' ⊢
        rcases hps : InfoRetrieval.processRoles cdkey region redeemOf acc
          roles with ⟨res, tr1⟩
        rw [hps] at hacc'
        cases res with
        | error e =>
          have hacc2 : (Except.error e : Except String
              (Option InfoRetrieval.ResultTable)) = .ok acc' := hacc'
          exact Except.noConfusion hacc2
        | ok acc1 =>
          have hacc2 : (InfoRetrieval.mainLoop cdkey rolesOf redeemOf acc1
              rest).1 = .ok acc' := hacc'
          have h1 := InfoRetrieval.processRoles_origin cdkey region redeemOf
            roles acc tr h acc1 (by rw [hps])
          rw [hps] at h1
          have h1' : originOK cdkey redeemOf (acc1.getD []) (tr ++ tr1) := h1
          have h2 := ih acc1 (tr ++ tr1) h1' acc' hacc2
          have h3 : originOK cdkey redeemOf (acc'.getD [])
              (tr ++ (tr1 ++ (InfoRetrieval.mainLoop cdkey rolesOf redeemOf
                acc1 rest).2)) := by
            rwa [← List.append_assoc]
          exact h3

/-- When `cdkey.py`'s loop returns a status string, that string is the
mapped retcode of the single redemption call of its trace. -/
theorem Cdkey.cdkeyLoop_ok_origin (cdkey : String)
    (rolesOf : String → RolesResponse)
    (redeemOf : RedeemCall → RedeemResponse) :
    ∀ (rl : List String) (s : String),
    (Cdkey.mainLoop cdkey rolesOf redeemOf rl).1 = .ok (some s) →
    ∃ c, (Cdkey.mainLoop cdkey rolesOf redeemOf rl).2 = [c] ∧ c.cdkey = cdkey
      ∧ ∃ ret : Int, redeemOf c = .ok ret ∧ s = retcodeTable ret := by
  intro rl
  induction rl with
  | nil => intro s h; simp [Cdkey.mainLoop] at h
  | cons region rest ih =>
    intro s h
    cases hr : rolesOf region with
    | error e =>
      rw [Cdkey.mainLoop] at h
      simp only [hr] at h
      exact absurd h (by simp)
    | ok d =>
      cases d with
      | null =>
        rw [Cdkey.mainLoop] at h
        simp only [hr] at h
        exact absurd h (by simp)
      | withList roles =>
        cases roles with
        | nil =>
          rw [Cdkey.mainLoop] at h ⊢
          simp only [hr] at h ⊢
          exact ih s h
        | cons first tlr =>
          rw [Cdkey.mainLoop] at h ⊢
          simp only [hr] at h ⊢
          cases hc : redeemOf ⟨first.game_uid, cdkey, region,
              first.game_biz⟩ with
          | error e =>
            simp only [Cdkey.get_cdkey_info, hc, Except.map] at h
            exact absurd h (by simp)
          | ok ret =>
            simp only [Cdkey.get_cdkey_info, hc, Except.map] at h ⊢
            have hs : retcodeTable ret = s := by
              injection h with h1
              injection h1
            exact ⟨⟨first.game_uid, cdkey, region, first.game_biz⟩, rfl, rfl,
              ret, hc, hs.symm⟩

/-- When `cd_key_retrieval.py`'s loop returns a status string, that string
is the mapped retcode of the single redemption call of its trace. -/
theorem CdKeyRetrieval.retrLoop_ok_origin (cdkey : String)
    (rolesOf : String → RolesResponse)
    (redeemOf : RedeemCall → RedeemResponse) :
    ∀ (rl : List String) (s : String),
    (CdKeyRetrieval.mainLoop cdkey rolesOf redeemOf rl).1 = .ok (some s) →
    ∃ c, (CdKeyRetrieval.mainLoop cdkey rolesOf redeemOf rl).2 = [c]
      ∧ c.cdkey = cdkey
      ∧ ∃ ret : Int, redeemOf c = .ok ret ∧ s = retcodeTable ret := by
  intro rl
  induction rl with
  | nil => intro s h; simp [CdKeyRetrieval.mainLoop] at h
  | cons region rest ih =>
    intro s h
    cases hr : rolesOf region with
    | error e =>
      rw [CdKeyRetrieval.mainLoop] at h
      simp only [hr] at h
      exact absurd h (by simp)
    | ok d =>
      cases d with
      | null =>
        rw [CdKeyRetrieval.mainLoop] at h ⊢
        simp only [hr] at h ⊢
        exact ih s h
      | withList roles =>
        cases roles with
        | nil =>
          rw [CdKeyRetrieval.mainLoop] at h ⊢
          simp only [hr] at h ⊢
          exact ih s h
        | cons first tlr =>
          rw [CdKeyRetrieval.mainLoop] at h ⊢
          simp only [hr] at h ⊢
          cases hc : redeemOf ⟨first.game_uid, cdkey, region,
              first.game_biz⟩ with
          | error e =>
            simp only [CdKeyRetrieval.get_cdkey_status, hc, Except.map] at h
            exact absurd h (by simp)
          | ok ret =>
            simp only [CdKeyRetrieval.get_cdkey_status, hc, Except.map]
              at h ⊢
            have hs : retcodeTable ret = s := by
              injection h with h1
              injection h1
            exact ⟨⟨first.game_uid, cdkey, region, first.game_biz⟩, rfl, rfl,
              ret, hc, hs.symm⟩

/-- C6: every status value any driver outputs originates from exactly one
remote redemption call: the fixed table applied to that call's retcode.  An
unrecognized retcode still yields a status (never an error), since the
mapping is total.  For the exhaustive variant, every entry of the returned
table has a call origin in the run's trace; for the early-return variants,
the returned string is the mapped retcode of their trace's single call. -/
theorem claim_C6 (cdkey : String) (rolesOf : String → RolesResponse)
    (redeemOf : RedeemCall → RedeemResponse) :
    (∀ ret : Int, InfoRetrieval.get_cdkey_status (.ok ret)
        = .ok (retcodeTable ret))
    ∧ (∀ d : InfoRetrieval.ResultTable,
        (InfoRetrieval.main cdkey rolesOf redeemOf).1 = .ok (some d) →
        ∀ r inner, (r, inner) ∈ d → ∀ uid s, (uid, s) ∈ inner →
          callOrigin cdkey redeemOf
            (InfoRetrieval.main cdkey rolesOf redeemOf).2 r uid s)
    ∧ (∀ s : String, (Cdkey.main cdkey rolesOf redeemOf).1 = .ok (some s) →
        ∃ c, (Cdkey.main cdkey rolesOf redeemOf).2 = [c] ∧ c.cdkey = cdkey
          ∧ ∃ ret : Int, redeemOf c = .ok ret ∧ s = retcodeTable ret)
    ∧ (∀ s : String,
        (CdKeyRetrieval.main cdkey rolesOf redeemOf).1 = .ok (some s) →
        ∃ c, (CdKeyRetrieval.main cdkey rolesOf redeemOf).2 = [c]
          ∧ c.cdkey = cdkey
          ∧ ∃ ret : Int, redeemOf c = .ok ret ∧ s = retcodeTable ret) := by
  refine ⟨fun ret => rfl, ?_, ?_, ?_⟩
  · intro d hd r inner hri uid s hus
    have h0 : originOK cdkey redeemOf
        ((none : Option InfoRetrieval.ResultTable).getD []) [] :=
      fun r i hri => absurd hri (by simp)
    have h1 := InfoRetrieval.mainLoop_origin cdkey rolesOf redeemOf regions
      none [] h0 (some d) hd
    have h2 : originOK cdkey redeemOf d
        ((InfoRetrieval.main cdkey rolesOf redeemOf).2) := by
      simpa [InfoRetrieval.main] using h1
    exact h2 r inner hri uid s hus
  · exact fun s h =>
      Cdkey.cdkeyLoop_ok_origin cdkey rolesOf redeemOf regions s h
  · exact fun s h =>
      CdKeyRetrieval.retrLoop_ok_origin cdkey rolesOf redeemOf regions s h

/-- Witness for C6: in a concrete run, the entry for account 1 under
`os_usa` originates from a call of the trace. -/
theorem claim_C6_witness :
    callOrigin "k" redeemAllZero
      (InfoRetrieval.main "k" rolesTwoUsa redeemAllZero).2 "os_usa" 1
      "success" :=
  (claim_C6 "k" rolesTwoUsa redeemAllZero).2.1
    [("os_usa", [(1, "success"), (2, "success")])] rfl
    "os_usa" [(1, "success"), (2, "success")] (by simp) 1 "success" (by simp)

/-- `cdkey.py`'s loop output depends on the role-lookup oracle only at the
regions it visits. -/
theorem Cdkey.cdkeyLoop_roles_congr (cdkey : String)
    (rolesOf rolesOf' : String → RolesResponse)
    (redeemOf : RedeemCall → RedeemResponse) :
    ∀ rl : List String, (∀ r ∈ rl, rolesOf' r = rolesOf r) →
    Cdkey.mainLoop cdkey rolesOf' redeemOf rl
      = Cdkey.mainLoop cdkey rolesOf redeemOf rl := by
  intro rl
  induction rl with
  | nil => intro _; rfl
  | cons region rest ih =>
    intro hr
    have hreg : rolesOf' region = rolesOf region := hr region (by simp)
    have ih' := ih (fun q hq => hr q (by simp [hq]))
    rw [Cdkey.mainLoop, Cdkey.mainLoop, hreg]
    cases hr0 : rolesOf region with
    | error e => rfl
    | ok d =>
      cases d with
      | null => rfl
      | withList roles =>
        cases roles with
        | nil => exact ih'
        | cons first tlr => rfl

/-- `cd_key_retrieval.py`'s loop output depends on the role-lookup oracle
only at the regions it visits. -/
theorem CdKeyRetrieval.retrLoop_roles_congr (cdkey : String)
    (rolesOf rolesOf' : String → RolesResponse)
    (redeemOf : RedeemCall → RedeemResponse) :
    ∀ rl : List String, (∀ r ∈ rl, rolesOf' r = rolesOf r) →
    CdKeyRetrieval.mainLoop cdkey rolesOf' redeemOf rl
      = CdKeyRetrieval.mainLoop cdkey rolesOf redeemOf rl := by
  intro rl
  induction rl with
  | nil => intro _; rfl
  | cons region rest ih =>
    intro hr
    have hreg : rolesOf' region = rolesOf region := hr region (by simp)
    have ih' := ih (fun q hq => hr q (by simp [hq]))
    rw [CdKeyRetrieval.mainLoop, CdKeyRetrieval.mainLoop, hreg]
    cases hr0 : rolesOf region with
    | error e => rfl
    | ok d =>
      cases d with
      | null => exact ih'
      | withList roles =>
        cases roles with
        | nil => exact ih'
        | cons first tlr => rfl

/-- `cdkey_info_retrieval.py`'s loop output depends on the role-lookup
oracle only at the regions it visits. -/
theorem InfoRetrieval.infoLoop_roles_congr (cdkey : String)
    (rolesOf rolesOf' : String → RolesResponse)
    (redeemOf : RedeemCall → RedeemResponse) :
    ∀ rl : List String, (∀ r ∈ rl, rolesOf' r = rolesOf r) →
    ∀ acc, InfoRetrieval.mainLoop cdkey rolesOf' redeemOf acc rl
      = InfoRetrieval.mainLoop cdkey rolesOf redeemOf acc rl := by
  intro rl
  induction rl with
  | nil => intro _ acc; rfl
  | cons region rest ih =>
    intro hr acc
    have hreg : rolesOf' region = rolesOf region := hr region (by simp)
    have ih' := ih (fun q hq => hr q (by simp [hq]))
    rw [InfoRetrieval.mainLoop, InfoRetrieval.mainLoop, hreg]
    cases hr0 : rolesOf region with
    | error e => rfl
    | ok d =>
      cases d with
      | null => exact ih' acc
      | withList roles =>
        rcases hps : InfoRetrieval.processRoles cdkey region redeemOf acc
          roles with ⟨res, tr1⟩
        cases res with
        | error e => simp only [hps]
        | ok acc1 => simp only [hps, ih' acc1]

/-- C10: the drivers are deterministic functions of the code and the remote
responses.  Two runs whose role-lookup responses agree on the four fixed
regions and whose redemption responses agree on every call produce
identical outputs (return value and call trace) in all three variants; the
embedding is a pure function of these inputs, mirroring the absence of any
other input, randomness or shared state in the source. -/
theorem claim_C10 (cdkey : String) (rolesOf rolesOf' : String → RolesResponse)
    (redeemOf redeemOf' : RedeemCall → RedeemResponse)
    (hroles : ∀ r ∈ regions, rolesOf' r = rolesOf r)
    (hredeem : ∀ c : RedeemCall, redeemOf' c = redeemOf c) :
    Cdkey.main cdkey rolesOf' redeemOf' = Cdkey.main cdkey rolesOf redeemOf
    ∧ CdKeyRetrieval.main cdkey rolesOf' redeemOf'
      = CdKeyRetrieval.main cdkey rolesOf redeemOf
    ∧ InfoRetrieval.main cdkey rolesOf' redeemOf'
      = InfoRetrieval.main cdkey rolesOf redeemOf := by
  have h2 : redeemOf' = redeemOf := funext hredeem
  subst h2
  exact ⟨Cdkey.cdkeyLoop_roles_congr cdkey rolesOf rolesOf' redeemOf' regions
      hroles,
    CdKeyRetrieval.retrLoop_roles_congr cdkey rolesOf rolesOf' redeemOf'
      regions hroles,
    InfoRetrieval.infoLoop_roles_congr cdkey rolesOf rolesOf' redeemOf'
      regions hroles none⟩

/-- Witness for C10 at a concrete oracle pair. -/
theorem claim_C10_witness :
    Cdkey.main "k" rolesTwoUsa redeemAllZero
      = Cdkey.main "k" rolesTwoUsa redeemAllZero
    ∧ CdKeyRetrieval.main "k" rolesTwoUsa redeemAllZero
      = CdKeyRetrieval.main "k" rolesTwoUsa redeemAllZero
    ∧ InfoRetrieval.main "k" rolesTwoUsa redeemAllZero
      = InfoRetrieval.main "k" rolesTwoUsa redeemAllZero :=
  claim_C10 "k" rolesTwoUsa rolesTwoUsa redeemAllZero redeemAllZero
    (fun _ _ => rfl) (fun _ => rfl)
